import Mathlib

/-!
# ThreadStone: the Dhrystone wrapper `workloads/native/dhry/wrapper.c`

A shallow embedding of the public symbol

    size_t dhry(size_t _ignored)
    {
        for (int i = 0; i < DHRY_ITERS; ++i)
        {
            Proc_0();
        }
        return DHRY_ITERS;
    }

and of the earlier version kept in the comment block at the top of the file
(`int dhry(int runs)`).

Modelling choices.

* `Proc_0` is external: it is a total state transformer `f : σ → σ` on an
  arbitrary state type `σ` (each invocation terminates).
* `DHRY_ITERS` is not defined in the file, it comes from the build.  It is a
  parameter `N : Int`, the value of a signed integer constant expression.  In
  `i < DHRY_ITERS` both operands are signed, so after the usual arithmetic
  conversions the comparison is the mathematical one.
* `int` is 32 bits wide.  `++i` at `INT_MAX` overflows; C leaves this
  undefined, a build with `-fwrapv` wraps to `INT_MIN`.  Both readings are
  kept, selected by `Overflow`.
* `size_t` is `w` bits wide; `return DHRY_ITERS;` converts `N` to `size_t`,
  that is, reduces it modulo `2 ^ w`.
* The loop is run with explicit fuel, one unit per evaluation of the loop
  condition, so that a run which never leaves the loop is observable as
  `Res.timeout` for every amount of fuel.
-/

namespace ThreadStone

/-- Largest value of the 32-bit `int` used as the loop counter. -/
def INT_MAX : Int := 2147483647

/-- Smallest value of the 32-bit `int`. -/
def INT_MIN : Int := -2147483648

/-- Treatment of signed overflow in `++i`: undefined behaviour (ISO C) or
two's-complement wrap-around (`-fwrapv`). -/
inductive Overflow where
  | undefined
  | wraps
  deriving DecidableEq, Repr

/-- Result of running a piece of C code with a bounded number of steps. -/
inductive Res (α : Type) where
  /-- the code ran to completion with this result -/
  | ok (a : α)
  /-- the run reached undefined behaviour -/
  | undef
  /-- the fuel ran out before the code completed -/
  | timeout
  deriving DecidableEq, Repr

/-- The increment `++i` on an `int`. -/
def incr (m : Overflow) (i : Int) : Option Int :=
  if i < INT_MAX then some (i + 1)
  else
    match m with
    | Overflow.undefined => none
    | Overflow.wraps => some INT_MIN

/-- The loop `for (int i = ...; i < bound; ++i) { Proc_0(); }` started with the
counter at `i` in state `s`; one unit of fuel per test of the condition. -/
def forLoop {σ : Type} (m : Overflow) (bound : Int) (Proc_0 : σ → σ) : Nat → Int → σ → Res σ
  | 0, _, _ => Res.timeout
  | fuel + 1, i, s =>
    if i < bound then
      match incr m i with
      | some j => forLoop m bound Proc_0 fuel j (Proc_0 s)
      | none => Res.undef
    else Res.ok s

/-- Conversion of a signed integer value to `size_t` of width `w`. -/
def toSizeT (w : Nat) (n : Int) : Nat := (n % 2 ^ w).toNat

/-- The current `size_t dhry(size_t _ignored)` with `DHRY_ITERS = N`: the
return value and the state left behind. -/
def dhry {σ : Type} (m : Overflow) (w : Nat) (DHRY_ITERS : Int) (Proc_0 : σ → σ) (fuel : Nat)
    (_ignored : Nat) (s : σ) : Res (Nat × σ) :=
  match forLoop m DHRY_ITERS Proc_0 fuel 0 s with
  | Res.ok s' => Res.ok (toSizeT w DHRY_ITERS, s')
  | Res.undef => Res.undef
  | Res.timeout => Res.timeout

/-- The earlier `int dhry(int runs)` of the comment block: it loops `runs`
times and returns `runs`. -/
def dhryOld {σ : Type} (m : Overflow) (Proc_0 : σ → σ) (fuel : Nat) (runs : Int) (s : σ) :
    Res (Int × σ) :=
  match forLoop m runs Proc_0 fuel 0 s with
  | Res.ok s' => Res.ok (runs, s')
  | Res.undef => Res.undef
  | Res.timeout => Res.timeout

/-- Calls of `dhry` one after the other on the inputs `xs`, each starting in
the state the previous one left: the list of return values and the last
state. -/
def dhrySeq {σ : Type} (m : Overflow) (w : Nat) (N : Int) (f : σ → σ) (fuel : Nat) :
    List Nat → σ → Res (List Nat × σ)
  | [], s => Res.ok ([], s)
  | x :: xs, s =>
    match dhry m w N f fuel x s with
    | Res.ok (r, s') =>
      match dhrySeq m w N f fuel xs s' with
      | Res.ok (rs, s'') => Res.ok (r :: rs, s'')
      | Res.undef => Res.undef
      | Res.timeout => Res.timeout
    | Res.undef => Res.undef
    | Res.timeout => Res.timeout

/-- A stub for `Proc_0` that counts its invocations. -/
def countingStub (c : Nat) : Nat := c + 1

/-- An arbitrary `Proc_0` instrumented with an invocation counter. -/
def counted {σ : Type} (f : σ → σ) (p : σ × Nat) : σ × Nat := (f p.1, p.2 + 1)

/-! ## The loop -/

theorem forLoop_exit {σ : Type} (m : Overflow) (bound : Int) (f : σ → σ) (fuel : Nat)
    (i : Int) (s : σ) (h : ¬ i < bound) :
    forLoop m bound f (fuel + 1) i s = Res.ok s := by
  simp [forLoop, h]

theorem forLoop_step {σ : Type} (m : Overflow) (bound : Int) (f : σ → σ) (fuel : Nat)
    (i : Int) (s : σ) (h : i < bound) (hi : i < INT_MAX) :
    forLoop m bound f (fuel + 1) i s = forLoop m bound f fuel (i + 1) (f s) := by
  simp [forLoop, incr, h, hi]

/-- With the bound inside the range of `int`, the loop started at `i` runs the
body `bound - i` times and exits, given fuel for `bound - i + 1` tests. -/
theorem forLoop_runs {σ : Type} (m : Overflow) (bound : Int) (f : σ → σ)
    (hb : bound ≤ INT_MAX) :
    ∀ (n fuel : Nat) (i : Int) (s : σ), i + n = bound → n + 1 ≤ fuel →
      forLoop m bound f fuel i s = Res.ok (f^[n] s) := by
  intro n
  induction n with
  | zero =>
    intro fuel i s hi hf
    obtain ⟨k, rfl⟩ : ∃ k, fuel = k + 1 := ⟨fuel - 1, by omega⟩
    have : ¬ i < bound := by simp at hi; omega
    simp [forLoop_exit m bound f k i s this]
  | succ n ih =>
    intro fuel i s hi hf
    obtain ⟨k, rfl⟩ : ∃ k, fuel = k + 1 := ⟨fuel - 1, by omega⟩
    have h1 : i < bound := by push_cast at hi; omega
    have h2 : i < INT_MAX := lt_of_lt_of_le h1 hb
    rw [forLoop_step m bound f k i s h1 h2, ih k (i + 1) (f s) (by push_cast at hi; omega) (by omega)]
    simp [Function.iterate_succ_apply]

/-- A bound above `INT_MAX` is never reached: from any counter value of type
`int` the loop cannot exit, whatever the fuel and the overflow behaviour. -/
theorem forLoop_no_exit {σ : Type} (m : Overflow) (bound : Int) (f : σ → σ)
    (hb : INT_MAX < bound) :
    ∀ (fuel : Nat) (i : Int) (s s' : σ), i ≤ INT_MAX →
      forLoop m bound f fuel i s ≠ Res.ok s' := by
  intro fuel
  induction fuel with
  | zero => intro i s s' _; simp [forLoop]
  | succ k ih =>
    intro i s s' hi
    have h1 : i < bound := lt_of_le_of_lt hi hb
    by_cases h2 : i < INT_MAX
    · rw [forLoop_step m bound f k i s h1 h2]
      exact ih (i + 1) (f s) s' (by omega)
    · cases m with
      | undefined => simp [forLoop, incr, h1, h2]
      | wraps =>
        have : forLoop Overflow.wraps bound f (k + 1) i s
            = forLoop Overflow.wraps bound f k INT_MIN (f s) := by
          simp [forLoop, incr, h1, h2]
        rw [this]
        exact ih INT_MIN (f s) s' (by decide)

/-- Under ISO C overflow rules a bound above `INT_MAX` drives the counter to
`INT_MAX`, where `++i` is undefined. -/
theorem forLoop_overflow {σ : Type} (bound : Int) (f : σ → σ) (hb : INT_MAX < bound) :
    ∀ (n fuel : Nat) (i : Int) (s : σ), i + n = INT_MAX → n + 1 ≤ fuel →
      forLoop Overflow.undefined bound f fuel i s = Res.undef := by
  intro n
  induction n with
  | zero =>
    intro fuel i s hi hf
    obtain ⟨k, rfl⟩ : ∃ k, fuel = k + 1 := ⟨fuel - 1, by omega⟩
    have h1 : i < bound := by simp at hi; omega
    have h2 : ¬ i < INT_MAX := by simp at hi; omega
    simp [forLoop, incr, h1, h2]
  | succ n ih =>
    intro fuel i s hi hf
    obtain ⟨k, rfl⟩ : ∃ k, fuel = k + 1 := ⟨fuel - 1, by omega⟩
    have h2 : i < INT_MAX := by push_cast at hi; omega
    have h1 : i < bound := lt_trans h2 hb
    rw [forLoop_step Overflow.undefined bound f k i s h1 h2]
    exact ih k (i + 1) (f s) (by push_cast at hi; omega) (by omega)

/-- With wrap-around a bound above `INT_MAX` keeps the loop running for ever:
every amount of fuel is used up. -/
theorem forLoop_wraps_timeout {σ : Type} (bound : Int) (f : σ → σ) (hb : INT_MAX < bound) :
    ∀ (fuel : Nat) (i : Int) (s : σ), i ≤ INT_MAX →
      forLoop Overflow.wraps bound f fuel i s = Res.timeout := by
  intro fuel
  induction fuel with
  | zero => intro i s _; rfl
  | succ k ih =>
    intro i s hi
    have h1 : i < bound := lt_of_le_of_lt hi hb
    by_cases h2 : i < INT_MAX
    · rw [forLoop_step Overflow.wraps bound f k i s h1 h2]
      exact ih (i + 1) (f s) (by omega)
    · have : forLoop Overflow.wraps bound f (k + 1) i s
          = forLoop Overflow.wraps bound f k INT_MIN (f s) := by
        simp [forLoop, incr, h1, h2]
      rw [this]
      exact ih INT_MIN (f s) (by decide)

/-! ## Conversion to `size_t` -/

theorem two_pow_32_le (w : Nat) (hw : 32 ≤ w) : (4294967296 : Int) ≤ 2 ^ w := by
  have h : (2 : Int) ^ 32 ≤ 2 ^ w := pow_le_pow_right₀ (by norm_num) hw
  norm_num at h
  exact h

theorem toSizeT_of_nonneg (w : Nat) (n : Int) (h0 : 0 ≤ n) (h1 : n < 2 ^ w) :
    toSizeT w n = n.toNat := by
  unfold toSizeT
  rw [Int.emod_eq_of_lt h0 h1]

theorem toSizeT_of_neg (w : Nat) (n : Int) (h0 : n < 0) (h1 : -(2 ^ w) ≤ n) :
    ((toSizeT w n : Nat) : Int) = 2 ^ w + n := by
  unfold toSizeT
  have hm : n % 2 ^ w = 2 ^ w + n := by
    rw [← Int.add_emod_self_left]
    exact Int.emod_eq_of_lt (by omega) (by omega)
  rw [hm, Int.toNat_of_nonneg (by omega)]

/-! ## The wrapper -/

/-- The counting stub applied `n` times adds `n`. -/
theorem countingStub_iterate (n c : Nat) : countingStub^[n] c = c + n := by
  induction n generalizing c with
  | zero => rfl
  | succ n ih => rw [Function.iterate_succ_apply, ih]; simp [countingStub]; omega

/-- The instrumented procedure applied `n` times applies `f` `n` times and adds
`n` to the counter. -/
theorem counted_iterate {σ : Type} (f : σ → σ) (n : Nat) (s : σ) (c : Nat) :
    (counted f)^[n] (s, c) = (f^[n] s, c + n) := by
  induction n generalizing s c with
  | zero => rfl
  | succ n ih => rw [Function.iterate_succ_apply, Function.iterate_succ_apply]
                 simp only [counted]; rw [ih]; congr 1; omega

/-- For an iteration count in the range of `int`, `dhry` returns the count and
leaves the state `f^[N] s`, given fuel for `N + 1` tests of the condition. -/
theorem dhry_returns {σ : Type} (m : Overflow) (w : Nat) (N : Int) (f : σ → σ) (fuel x : Nat)
    (s : σ) (h0 : 0 ≤ N) (h1 : N ≤ INT_MAX) (hw : 32 ≤ w) (hf : N.toNat + 1 ≤ fuel) :
    dhry m w N f fuel x s = Res.ok (N.toNat, f^[N.toNat] s) := by
  have hl := forLoop_runs m N f h1 N.toNat fuel 0 s (by simp [Int.toNat_of_nonneg h0]) hf
  have hp := two_pow_32_le w hw
  have hs : toSizeT w N = N.toNat :=
    toSizeT_of_nonneg w N h0 (by unfold INT_MAX at h1; omega)
  simp [dhry, hl, hs]

/-- For an iteration count above `INT_MAX` no call of `dhry` returns. -/
theorem dhry_no_return {σ : Type} (m : Overflow) (w : Nat) (N : Int) (f : σ → σ) (fuel x : Nat)
    (s : σ) (r : Nat × σ) (hN : INT_MAX < N) :
    dhry m w N f fuel x s ≠ Res.ok r := by
  unfold dhry
  cases h : forLoop m N f fuel 0 s with
  | ok s' => exact absurd h (forLoop_no_exit m N f hN fuel 0 s s' (by decide))
  | undef => simp
  | timeout => simp

/-- For an iteration count in the range of `int`, `k` calls in sequence all
return the count and leave the state `f^[k * N] s`. -/
theorem dhrySeq_returns {σ : Type} (m : Overflow) (w : Nat) (N : Int) (f : σ → σ) (fuel : Nat)
    (h0 : 0 ≤ N) (h1 : N ≤ INT_MAX) (hw : 32 ≤ w) (hf : N.toNat + 1 ≤ fuel) :
    ∀ (xs : List Nat) (s : σ),
      dhrySeq m w N f fuel xs s
        = Res.ok (List.replicate xs.length N.toNat, f^[xs.length * N.toNat] s) := by
  intro xs
  induction xs with
  | nil => intro s; simp [dhrySeq]
  | cons x xs ih =>
    intro s
    simp only [dhrySeq, dhry_returns m w N f fuel x s h0 h1 hw hf, ih, List.length_cons,
      List.replicate_succ]
    rw [Nat.succ_mul, Function.iterate_add_apply]

/-- The scenario of the specification: with `DHRY_ITERS = 1000000`, a 64-bit
`size_t` and the counting stub started at `0`, `dhry(0)` returns `1000000` and
the counter reads `1000000`. -/
theorem dhry_million (m : Overflow) (fuel : Nat) :
    dhry m 64 1000000 countingStub (1000001 + fuel) 0 0 = Res.ok (1000000, 1000000) := by
  have e : (1000000 : Int).toNat = 1000000 := rfl
  have h := dhry_returns m 64 1000000 countingStub (1000001 + fuel) 0 0
    (by decide) (by decide) (by decide) (by rw [e]; omega)
  rw [e, countingStub_iterate] at h
  simpa using h

/-! ## The specification's statements -/

/-- C1, at `DHRY_ITERS = 2147483648` (one above `INT_MAX`): whatever the input
`x`, the overflow behaviour, the width of `size_t`, the procedure and the fuel,
the call `dhry(x)` does not return, so it does not return `N`. -/
theorem dhry_2pow31_no_return {σ : Type} (m : Overflow) (w : Nat) (f : σ → σ) (fuel x : Nat)
    (s : σ) (r : Nat × σ) :
    dhry m w 2147483648 f fuel x s ≠ Res.ok r :=
  dhry_no_return m w 2147483648 f fuel x s r (by decide)

/-- C2, at `DHRY_ITERS = 2147483648`: for every procedure `f` and initial state
`s`, no run of `dhry(x)` ends in the state `f^[N] s`; in particular with the
counting stub and the counter initially `0`, no run ends with `N` returned and
the counter reading `N`. -/
theorem dhry_2pow31_state_not_iterate {σ : Type} (m : Overflow) (w : Nat) (f : σ → σ)
    (fuel x : Nat) (s : σ) (r : Nat) :
    dhry m w 2147483648 f fuel x s ≠ Res.ok (r, f^[2147483648] s) ∧
      dhry m w 2147483648 countingStub fuel x 0 ≠ Res.ok (2147483648, 2147483648) :=
  ⟨dhry_no_return m w 2147483648 f fuel x s _ (by decide),
    dhry_no_return m w 2147483648 countingStub fuel x 0 _ (by decide)⟩

/-- C3: the input has no effect. For every two inputs `x` and `y`, every
iteration count, procedure, initial state and amount of fuel, `dhry(x)` and
`dhry(y)` have the same outcome (return value and final state), also with the
procedure instrumented by an invocation counter. -/
theorem dhry_input_irrelevant {σ : Type} (m : Overflow) (w : Nat) (N : Int) (f : σ → σ)
    (fuel x y : Nat) (s : σ) (c : Nat) :
    dhry m w N f fuel x s = dhry m w N f fuel y s ∧
      dhry m w N (counted f) fuel x (s, c) = dhry m w N (counted f) fuel y (s, c) :=
  ⟨rfl, rfl⟩

/-- C4, at `DHRY_ITERS = 2147483648`: a sequence of one or more calls of `dhry`
never completes, so the calls do not each return `N` and the invocation total
`k * N` is never observed. -/
theorem dhrySeq_2pow31_no_return {σ : Type} (m : Overflow) (w : Nat) (f : σ → σ)
    (fuel x : Nat) (xs : List Nat) (s : σ) (r : List Nat × σ) :
    dhrySeq m w 2147483648 f fuel (x :: xs) s ≠ Res.ok r := by
  unfold dhrySeq
  cases h : dhry m w 2147483648 f fuel x s with
  | ok p => exact absurd h (dhry_no_return m w 2147483648 f fuel x s p (by decide))
  | undef => simp
  | timeout => simp

/-- C5: with `DHRY_ITERS = 0`, for every input and every initial state, `dhry`
returns `0` and leaves the state unchanged; with the procedure instrumented by
an invocation counter, the counter is unchanged: `Proc_0` is never invoked. -/
theorem dhry_zero_iters {σ : Type} (m : Overflow) (w : Nat) (f : σ → σ) (fuel x : Nat)
    (s : σ) (c : Nat) :
    dhry m w 0 f (fuel + 1) x s = Res.ok (0, s) ∧
      dhry m w 0 (counted f) (fuel + 1) x (s, c) = Res.ok (0, (s, c)) := by
  simp [dhry, forLoop, toSizeT]

/-- C6, at `DHRY_ITERS = 2147483648`: the loop does not terminate normally.
With wrap-around every amount of fuel is exhausted inside the loop; under the
ISO C rules the run reaches the undefined `++i` at `i = INT_MAX` as soon as the
fuel allows `2147483648` tests of the condition. -/
theorem dhry_2pow31_diverges {σ : Type} (w : Nat) (f : σ → σ) (fuel x : Nat) (s : σ) :
    dhry Overflow.wraps w 2147483648 f fuel x s = Res.timeout ∧
      dhry Overflow.undefined w 2147483648 f (2147483648 + fuel) x s = Res.undef := by
  constructor
  · simp [dhry, forLoop_wraps_timeout 2147483648 f (by decide) fuel 0 s (by decide)]
  · have h := forLoop_overflow 2147483648 f (by decide) 2147483647 (2147483648 + fuel) 0 s
      (by decide) (by omega)
    simp [dhry, h]

/-- C7: with `DHRY_ITERS` a negative `int` `N` and `size_t` at least as wide as
`int`, for every input the loop body never runs (state unchanged, invocation
counter unchanged) and `dhry` returns `N` converted to `size_t`, which is
`2 ^ w + N`, a non-zero value, while the number of invocations is zero. -/
theorem dhry_negative_iters {σ : Type} (m : Overflow) (w : Nat) (N : Int) (f : σ → σ)
    (fuel x : Nat) (s : σ) (c : Nat) (hlo : INT_MIN ≤ N) (hneg : N < 0) (hw : 32 ≤ w) :
    dhry m w N f (fuel + 1) x s = Res.ok (toSizeT w N, s) ∧
      dhry m w N (counted f) (fuel + 1) x (s, c) = Res.ok (toSizeT w N, (s, c)) ∧
      toSizeT w N = (N % 2 ^ w).toNat ∧
      ((toSizeT w N : Nat) : Int) = 2 ^ w + N ∧
      toSizeT w N ≠ 0 := by
  have hp := two_pow_32_le w hw
  have hc : ((toSizeT w N : Nat) : Int) = 2 ^ w + N :=
    toSizeT_of_neg w N hneg (by unfold INT_MIN at hlo; omega)
  have hn : ¬ (0 : Int) < N := by omega
  refine ⟨?_, ?_, rfl, hc, ?_⟩
  · simp [dhry, forLoop_exit m N f fuel 0 s hn]
  · simp [dhry, forLoop_exit m N (counted f) fuel 0 (s, c) hn]
  · intro h0
    rw [h0] at hc
    unfold INT_MIN at hlo
    simp at hc
    omega

/-- On a 64-bit target with `DHRY_ITERS = -1` the call returns `2 ^ 64 - 1` and
the counter keeps its value `5`. -/
theorem dhry_negative_iters_witness :
    dhry Overflow.undefined 64 (-1) countingStub 1 7 5 = Res.ok (18446744073709551615, 5) ∧
      (18446744073709551615 : Nat) ≠ 0 := by
  have h := dhry_negative_iters Overflow.undefined 64 (-1) countingStub 0 7 5 0
    (by decide) (by decide) (by decide)
  have e : toSizeT 64 (-1) = 18446744073709551615 := by decide
  rw [e] at h
  exact ⟨h.1, h.2.2.2.2⟩

/-- C8: the current `dhry` refines the earlier `int dhry(int runs)`. For every
iteration count `N` with `0 ≤ N ≤ INT_MAX`, every input `x`, procedure `f` and
initial state `s`, given fuel for the `N + 1` tests of the loop condition, the
current `dhry(x)` built with `DHRY_ITERS = N` and the earlier `dhry(N)` both
return, with the same final state `f^[N] s` and numerically equal values. -/
theorem dhry_refines_dhryOld {σ : Type} (m : Overflow) (w : Nat) (N : Int) (f : σ → σ)
    (fuel x : Nat) (s : σ) (h0 : 0 ≤ N) (h1 : N ≤ INT_MAX) (hw : 32 ≤ w)
    (hf : N.toNat + 1 ≤ fuel) :
    ∃ (r : Nat) (r' : Int) (t : σ),
      dhry m w N f fuel x s = Res.ok (r, t) ∧ dhryOld m f fuel N s = Res.ok (r', t) ∧
      (r : Int) = r' ∧ t = f^[N.toNat] s := by
  have hl := forLoop_runs m N f h1 N.toNat fuel 0 s (by simp [Int.toNat_of_nonneg h0]) hf
  refine ⟨N.toNat, N, f^[N.toNat] s, dhry_returns m w N f fuel x s h0 h1 hw hf, ?_,
    Int.toNat_of_nonneg h0, rfl⟩
  simp [dhryOld, hl]

/-- Both versions at the count `3` with the counting stub started at `0`. -/
theorem dhry_refines_dhryOld_witness :
    ∃ (r : Nat) (r' : Int) (t : Nat),
      dhry Overflow.undefined 64 3 countingStub 4 9 0 = Res.ok (r, t) ∧
      dhryOld Overflow.undefined countingStub 4 3 0 = Res.ok (r', t) ∧
      (r : Int) = r' ∧ t = countingStub^[(3 : Int).toNat] 0 :=
  dhry_refines_dhryOld Overflow.undefined 64 3 countingStub 4 9 0
    (by decide) (by decide) (by decide) (by decide)

end ThreadStone
